import Mathlib

/-!
Verification development for the documentation token updater in
src/bin/api-docs/update-api-docs.js.

The script scans README and data documentation files for marker comments
of the form START TOKEN(name) or START TOKEN(name|path), and for each
matched token invokes an external generator process in sequence.

The definitions below are a shallow embedding of that script.  String
manipulation is modelled on Char lists so that every definition is
executable by the kernel.  Node path functions (resolve, relative, join,
dirname, basename) are modelled for absolute POSIX paths, which is the
only way the script uses them.  The absolute location of the repository
root depends on the environment; it is fixed here to the constant
SCRIPT_DIR, which stands for the Node __dirname of the script.
-/

/-- Character class of the regex dot in JS: any character except a line
terminator (src line 56 uses dot inside the token pattern). -/
def isDot (c : Char) : Bool :=
  (c != '\n') && (c != '\r') && (c != Char.ofNat 8232) && (c != Char.ofNat 8233)

/-- Characters of a token name that make the marker parse without a pipe
split: not a line terminator, not a pipe, not a closing parenthesis. -/
def plainTokenChar (c : Char) : Bool :=
  isDot c && (c != '|') && (c != ')')

/-- Characters of a path segment of a marker: not a line terminator and
not a closing parenthesis. -/
def plainPathChar (c : Char) : Bool :=
  isDot c && (c != ')')

/-- Literal text that opens a token marker (src line 56). -/
def startTag : List Char := "<!-- START TOKEN(".data

/-- Literal text that closes a token marker (src line 56). -/
def endTag : List Char := ") -->".data

/-- Lazy match of the inner group of TOKEN_PATTERN, the part after the
pipe: consume as few dot characters as possible (at least one) until the
closing literal follows.  Returns the consumed group and the rest of the
input after the closing literal. -/
def innerLazy (acc : List Char) : List Char → Option (List Char × List Char)
  | [] => none
  | c :: cs =>
    if isDot c then
      if endTag.isPrefixOf cs then some ((c :: acc).reverse, cs.drop endTag.length)
      else innerLazy (c :: acc) cs
    else none

/-- Attempt of the optional pipe group of TOKEN_PATTERN after the outer
lazy part has consumed acc and c: succeeds when the next character is a
pipe and the inner lazy group plus the closing literal match.  Returns
group one (including the pipe and the inner group), group two, and the
rest of the input. -/
def pipeGroup (acc : List Char) (c : Char) : List Char → Option (List Char × Option (List Char) × List Char)
  | [] => none
  | c2 :: cs2 =>
    if c2 = '|' then
      match innerLazy [] cs2 with
      | some r => some ((c :: acc).reverse ++ c2 :: r.1, some r.1, r.2)
      | none => none
    else none

/-- Lazy match of the body of TOKEN_PATTERN after the opening literal,
mirroring the backtracking order of the JS regex engine: the outer lazy
quantifier consumes as little as possible; at each length the optional
pipe group is tried before being skipped.  Returns group one, optional
group two, and the rest of the input after the closing literal. -/
def matchBody (acc : List Char) : List Char → Option (List Char × Option (List Char) × List Char)
  | [] => none
  | c :: cs =>
    if isDot c then
      match pipeGroup acc c cs with
      | some res => some res
      | none =>
        if endTag.isPrefixOf cs then some ((c :: acc).reverse, none, cs.drop endTag.length)
        else matchBody (c :: acc) cs
    else none

/-- Scan for successive matches of TOKEN_PATTERN, as String.matchAll
does with a global regex: find the leftmost match, record its groups,
continue after it; fuel bounds the recursion and is instantiated with
the length of the input, which always suffices because every step
consumes at least one character. -/
def scanAux : Nat → List Char → List (List Char × Option (List Char))
  | 0, _ => []
  | _ + 1, [] => []
  | fuel + 1, c :: cs =>
    if startTag.isPrefixOf (c :: cs) then
      match matchBody [] ((c :: cs).drop startTag.length) with
      | some (g1, g2, rest) => (g1, g2) :: scanAux fuel rest
      | none => scanAux fuel cs
    else scanAux fuel cs

/-- All matches of TOKEN_PATTERN in a file content, each as the pair of
group one and optional group two (src lines 56 and 176). -/
def tokenMatches (content : String) : List (List Char × Option (List Char)) :=
  scanAux content.data.length content.data

/-- Default source path used when a token has no path segment
(src line 49). -/
def DEFAULT_PATH : String := "src/index.js"

/-- Token list of a file content: for every match, the token identifier
is group one and the path is group two, defaulting to DEFAULT_PATH when
group two is absent (src lines 176 to 179). -/
def tokensOf (content : String) : List (String × String) :=
  (tokenMatches content).map (fun m =>
    (String.mk m.1,
      match m.2 with
      | some p => String.mk p
      | none => DEFAULT_PATH))

/-- Split of a character list on a separator character, keeping empty
pieces, as the JS String split does. -/
def splitOnChar (sep : Char) : List Char → List (List Char)
  | [] => [[]]
  | x :: xs =>
    let r := splitOnChar sep xs
    if x = sep then [] :: r
    else
      match r with
      | [] => [[x]]
      | y :: ys => (x :: y) :: ys

/-- Model of the JS String startsWith test. -/
def strStarts (s pre : String) : Bool := pre.data.isPrefixOf s.data

/-- Opening curly brace character, written by code to satisfy the
plain-text conventions of this file. -/
def lbrace : Char := Char.ofNat 123

/-- Closing curly brace character. -/
def rbrace : Char := Char.ofNat 125

/-- Test whether a pattern string is wrapped in curly braces, the shape
the script produces for a multi-package glob alternative. -/
def braceWrapped (l : List Char) : Bool :=
  match l with
  | [] => false
  | c :: cs => (c == lbrace) && (cs.getLastD ' ' == rbrace) && !cs.isEmpty

/-- Alternatives of a brace-wrapped glob pattern: the comma separated
pieces between the braces. -/
def braceAlternatives (l : List Char) : List (List Char) :=
  splitOnChar ',' (l.drop 1).dropLast

/-- Modelled semantics of one fast-glob pattern segment as produced by
this script: a star matches any single path segment, a brace-wrapped
pattern matches any of its comma separated alternatives, and any other
pattern is a literal. -/
def segMatches (pat seg : String) : Bool :=
  if pat = "*" then ! seg.data.contains '/'
  else if braceWrapped pat.data then
    (braceAlternatives pat.data).contains seg.data
  else pat == seg

/-- Non-empty segments of a POSIX path. -/
def pathSegs (p : String) : List String :=
  ((splitOnChar '/' p.data).filter (fun l => l ≠ [])).map String.mk

/-- Normalisation of path segments of an absolute path: a dot segment is
dropped and a dot-dot segment removes the previous segment, staying at
the root when there is none. -/
def normSegs (acc : List String) : List String → List String
  | [] => acc.reverse
  | s :: rest =>
    if s = "." then normSegs acc rest
    else if s = ".." then normSegs (acc.drop 1) rest
    else normSegs (s :: acc) rest

/-- Model of Node path resolve for an absolute base directory. -/
def resolvePath (dir p : String) : String :=
  let segs := if strStarts p "/" then pathSegs p else pathSegs dir ++ pathSegs p
  "/" ++ String.intercalate "/" (normSegs [] segs)

/-- Drop of the longest common leading run of two segment lists. -/
def dropCommon : List String → List String → List String × List String
  | a :: as, b :: bs => if a = b then dropCommon as bs else (a :: as, b :: bs)
  | as, bs => (as, bs)

/-- Model of Node path relative for two absolute paths. -/
def relativePath (f t : String) : String :=
  let p := dropCommon (normSegs [] (pathSegs f)) (normSegs [] (pathSegs t))
  String.intercalate "/" (p.1.map (fun _ => "..") ++ p.2)

/-- Model of Node path dirname for an absolute path. -/
def dirName (p : String) : String :=
  let segs := pathSegs p
  if segs.length ≤ 1 then "/" else "/" ++ String.intercalate "/" segs.dropLast

/-- Model of Node path join for an absolute first part. -/
def joinPath (parts : List String) : String :=
  "/" ++ String.intercalate "/" (normSegs [] (parts.map pathSegs).flatten)

/-- Model of Node path basename with an extension argument: the last
path segment, with the extension removed when it is a proper suffix. -/
def baseNameExt (p ext : String) : String :=
  let b := ((splitOnChar '/' p.data).filter (fun l => l ≠ [])).getLastD []
  if ext.data.isSuffixOf b && ext.data.length < b.length then
    String.mk (b.take (b.length - ext.data.length))
  else String.mk b

/-- Models the Node __dirname of the script; the repository root is
environment dependent and fixed here (src line 27 resolves relative to
it). -/
def SCRIPT_DIR : String := "/gutenberg/bin/api-docs"

/-- Root project directory (src line 27). -/
def ROOT_DIR : String := resolvePath SCRIPT_DIR "../.."

/-- Packages directory (src line 34). -/
def PACKAGES_DIR : String := resolvePath ROOT_DIR "packages"

/-- Data documentation directory (src lines 41 to 44). -/
def DATA_DOCS_DIR : String := resolvePath ROOT_DIR "docs/designers-developers/developers/data"

/-- Removal of a leading literal, as the JS String replace with an
anchored regex does (src line 115). -/
def dropPre (pre s : String) : String :=
  if pre.data.isPrefixOf s.data then String.mk (s.data.drop pre.data.length) else s

/-- Conventional store name of a package (src lines 98 to 105). -/
def getPackageStoreName (packageName : String) : String :=
  if packageName ≠ "core-data" then "core" ++ "/" ++ packageName else "core"

/-- Conventional package name of a documentation file name
(src lines 114 to 121). -/
def getDataDocumentationFilePackage (file : String) : String :=
  let packageName := dropPre "core-" (dropPre "data-" file)
  if packageName = "core" then packageName ++ "-data" else packageName

/-- Replacement of the first slash by a dash, as the JS String replace
with a plain string pattern does (src line 132). -/
def replFirstSlash : List Char → List Char
  | [] => []
  | c :: cs => if c = '/' then '-' :: cs else c :: replFirstSlash cs

/-- Conventional documentation file name of a package
(src lines 130 to 133). -/
def getDataDocumentationFile (packageName : String) : String :=
  "data-" ++ String.mk (replFirstSlash (getPackageStoreName packageName).data) ++ ".md"

/-- Package name of an absolute file path (src lines 65 to 69). -/
def getFilePackage (file : String) : String :=
  if strStarts file PACKAGES_DIR then
    String.mk ((splitOnChar '/' (relativePath PACKAGES_DIR file).data).headD [])
  else
    getDataDocumentationFilePackage (baseNameExt file ".md")

/-- First-occurrence deduplication, as iterating a JS Set does. -/
def uniqueFirstAux (seen : List String) : List String → List String
  | [] => []
  | x :: xs =>
    if x ∈ seen then uniqueFirstAux seen xs
    else x :: uniqueFirstAux (x :: seen) xs

/-- Deduplicated package list of a file list, in first occurrence
order (src line 87). -/
def uniqueFirst (l : List String) : List String := uniqueFirstAux [] l

/-- Glob pattern for the packages directory (src lines 80 to 89). -/
def getPackagePattern (files : List String) : String :=
  if files = [] then "*"
  else
    let packages := uniqueFirst (files.map getFilePackage)
    if packages.length = 1 then packages.headD ""
    else String.mk [lbrace] ++ String.intercalate "," packages ++ String.mk [rbrace]

/-- Glob pattern for the data documentation directory
(src lines 144 to 155). -/
def getDataDocumentationPattern (files : List String) : String :=
  if files = [] then "*"
  else
    let filePackages := uniqueFirst (files.map getFilePackage)
    let docFiles := filePackages.map getDataDocumentationFile
    if docFiles.length = 1 then docFiles.headD ""
    else String.mk [lbrace] ++ String.intercalate "," docFiles ++ String.mk [rbrace]

/-- Glob list passed to the stream (src lines 197 to 200). -/
def globList (files : List String) : List String :=
  [ PACKAGES_DIR ++ "/" ++ getPackagePattern files ++ "/README.md",
    DATA_DOCS_DIR ++ "/" ++ getDataDocumentationPattern files ]

/-- Occurrence test of a pattern inside a character list, used to state
that a file contains no token marker text at all. -/
def occursIn (pat : List Char) : List Char → Bool
  | [] => pat.isEmpty
  | c :: cs => pat.isPrefixOf (c :: cs) || occursIn pat cs

/-- One step of filterTokenTransform (src lines 164 to 188): the read
result is an error when the file is unreadable, which the empty catch
swallows; a falsy content, that is a failed read or the empty string,
yields nothing; a content without tokens yields nothing; otherwise the
tuple of file and tokens is pushed.  The transform always completes
normally, which the total return type expresses. -/
def transformFile (file : String) (readResult : Except String String) :
    Option (String × List (String × String)) :=
  match readResult with
  | Except.error _ => none
  | Except.ok content =>
    if content = "" then none
    else
      let tokens := tokensOf content
      if tokens = [] then none
      else some (file, tokens)

/-- One external generator process invocation: binary, argument list,
and the shell option (src lines 210 to 221). -/
structure Invocation where
  cmd : String
  args : List String
  shell : Bool
  deriving DecidableEq

/-- Path of the docgen binary (src line 212). -/
def DOCGEN_BIN : String :=
  joinPath [SCRIPT_DIR, "..", "..", "node_modules", ".bin", "docgen"]

/-- Generator invocation for one token of a file (src lines 210 to
221); the output argument is the file path relative to the root, as
computed once per file on src line 204. -/
def tokenInvocation (file : String) (tp : String × String) : Invocation :=
  { cmd := DOCGEN_BIN
    args := [ relativePath ROOT_DIR (resolvePath (dirName file) tp.2),
              "--output " ++ relativePath ROOT_DIR file,
              "--to-token",
              "--use-token \"" ++ tp.1 ++ "\"",
              "--ignore \"/unstable|experimental/i\"" ]
    shell := true }

/-- Invocation list produced for one file by the data handler when every
generator call succeeds (src lines 202 to 223): one invocation per
token, in the token order of the file. -/
def processFile (file : String) (readResult : Except String String) : List Invocation :=
  match transformFile file readResult with
  | none => []
  | some (f, ts) => ts.map (tokenInvocation f)

/-- Sequential execution of the token loop of the data handler
(src lines 210 to 222): each generator call is awaited before the next
token is processed; a rejected call ends the loop at once and the error
escapes uncaught.  Returns the invocations attempted, in order, and the
escaped error when one occurred. -/
def runFileTokens (gen : Invocation → Except String Unit) (file : String) :
    List (String × String) → List Invocation × Option String
  | [] => ([], none)
  | t :: ts =>
    let inv := tokenInvocation file t
    match gen inv with
    | Except.error e => ([inv], some e)
    | Except.ok _ =>
      let r := runFileTokens gen file ts
      (inv :: r.1, r.2)

/-! ### General helper lemmas -/

lemma strMkData (s : String) : String.mk s.data = s := by
  cases s
  rfl

lemma isPrefixOfSelfAppend (a b : List Char) : a.isPrefixOf (a ++ b) = true := by
  induction a with
  | nil => cases b <;> rfl
  | cons c cs ih => simp [List.isPrefixOf, ih]

lemma endTagNotPrefix {d : Char} (l : List Char) (hd : d ≠ ')') :
    endTag.isPrefixOf (d :: l) = false := by
  have h : (')' == d) = false := beq_eq_false_iff_ne.mpr (Ne.symm hd)
  show ((')' == d) && List.isPrefixOf " -->".data l) = false
  rw [h, Bool.false_and]

lemma plainTokenCharProps {c : Char} (h : plainTokenChar c = true) :
    isDot c = true ∧ c ≠ '|' ∧ c ≠ ')' := by
  simp only [plainTokenChar, Bool.and_eq_true, bne_iff_ne] at h
  exact ⟨h.1.1, h.1.2, h.2⟩

lemma plainPathCharProps {c : Char} (h : plainPathChar c = true) :
    isDot c = true ∧ c ≠ ')' := by
  simp only [plainPathChar, Bool.and_eq_true, bne_iff_ne] at h
  exact ⟨h.1, h.2⟩

/-! ### Token pattern matching lemmas -/

lemma pipeGroupNoPipe (acc : List Char) (c c2 : Char) (cs2 : List Char) (h : c2 ≠ '|') :
    pipeGroup acc c (c2 :: cs2) = none := by
  simp [pipeGroup, h]

lemma innerLazyCons (acc : List Char) (c : Char) (cs : List Char) :
    innerLazy acc (c :: cs) =
      if isDot c then
        if endTag.isPrefixOf cs then some ((c :: acc).reverse, cs.drop endTag.length)
        else innerLazy (c :: acc) cs
      else none := rfl

lemma innerLazyConsEnd (acc : List Char) (c : Char) (cs : List Char)
    (hdot : isDot c = true) (hok : endTag.isPrefixOf cs = true) :
    innerLazy acc (c :: cs) = some ((c :: acc).reverse, cs.drop endTag.length) := by
  rw [innerLazyCons, if_pos hdot, if_pos hok]

lemma innerLazyConsStep (acc : List Char) (c : Char) (cs : List Char)
    (hdot : isDot c = true) (hnp : endTag.isPrefixOf cs = false) :
    innerLazy acc (c :: cs) = innerLazy (c :: acc) cs := by
  rw [innerLazyCons, if_pos hdot, if_neg (by simp [hnp])]

lemma matchBodyCons (acc : List Char) (c : Char) (cs : List Char) :
    matchBody acc (c :: cs) =
      if isDot c then
        match pipeGroup acc c cs with
        | some res => some res
        | none =>
          if endTag.isPrefixOf cs then some ((c :: acc).reverse, none, cs.drop endTag.length)
          else matchBody (c :: acc) cs
      else none := rfl

lemma matchBodyConsPipe (acc : List Char) (c : Char) (cs : List Char)
    (res : List Char × Option (List Char) × List Char)
    (hdot : isDot c = true) (hpg : pipeGroup acc c cs = some res) :
    matchBody acc (c :: cs) = some res := by
  rw [matchBodyCons, if_pos hdot, hpg]

lemma matchBodyConsEnd (acc : List Char) (c : Char) (cs : List Char)
    (hdot : isDot c = true) (hpg : pipeGroup acc c cs = none)
    (hok : endTag.isPrefixOf cs = true) :
    matchBody acc (c :: cs) = some ((c :: acc).reverse, none, cs.drop endTag.length) := by
  rw [matchBodyCons, if_pos hdot, hpg, hok]
  simp

lemma matchBodyConsNone (acc : List Char) (c : Char) (cs : List Char)
    (hdot : isDot c = true) (hpg : pipeGroup acc c cs = none)
    (hnp : endTag.isPrefixOf cs = false) :
    matchBody acc (c :: cs) = matchBody (c :: acc) cs := by
  rw [matchBodyCons, if_pos hdot, hpg, hnp]
  simp

lemma pipeGroupConsPipe (acc : List Char) (c : Char) (cs2 g2 rest : List Char)
    (hin : innerLazy [] cs2 = some (g2, rest)) :
    pipeGroup acc c ('|' :: cs2) = some ((c :: acc).reverse ++ '|' :: g2, some g2, rest) := by
  show (if '|' = '|' then
      match innerLazy [] cs2 with
      | some r => some ((c :: acc).reverse ++ '|' :: r.1, some r.1, r.2)
      | none => none
    else none) = _
  rw [if_pos rfl, hin]

lemma innerLazyPlain : ∀ (l acc : List Char), l ≠ [] →
    l.all plainPathChar = true →
    innerLazy acc (l ++ endTag) = some (acc.reverse ++ l, []) := by
  intro l
  induction l with
  | nil => intro acc h _; exact absurd rfl h
  | cons c rest ih =>
    intro acc _ hall
    simp only [List.all_cons, Bool.and_eq_true] at hall
    obtain ⟨hc, hrest⟩ := hall
    obtain ⟨hdot, hcp⟩ := plainPathCharProps hc
    cases rest with
    | nil =>
      show innerLazy acc (c :: endTag) = _
      rw [innerLazyConsEnd acc c endTag hdot (by decide)]
      simp [List.reverse_cons, show endTag.drop endTag.length = ([] : List Char) from rfl]
    | cons d rest2 =>
      have hd := plainPathCharProps (by
        simp only [List.all_cons, Bool.and_eq_true] at hrest
        exact hrest.1)
      show innerLazy acc (c :: ((d :: rest2) ++ endTag)) = _
      have hnp : endTag.isPrefixOf ((d :: rest2) ++ endTag) = false := by
        show endTag.isPrefixOf (d :: (rest2 ++ endTag)) = false
        exact endTagNotPrefix _ hd.2
      rw [innerLazyConsStep acc c _ hdot hnp, ih (c :: acc) (by simp) hrest]
      simp [List.reverse_cons, List.append_assoc]

lemma matchBodyNoPipe : ∀ (l acc : List Char), l ≠ [] → l.all plainTokenChar = true →
    matchBody acc (l ++ endTag) = some (acc.reverse ++ l, none, []) := by
  intro l
  induction l with
  | nil => intro acc h _; exact absurd rfl h
  | cons c rest ih =>
    intro acc _ hall
    simp only [List.all_cons, Bool.and_eq_true] at hall
    obtain ⟨hc, hrest⟩ := hall
    obtain ⟨hdot, hpipe, hcp⟩ := plainTokenCharProps hc
    cases rest with
    | nil =>
      show matchBody acc (c :: endTag) = _
      have hpg : pipeGroup acc c endTag = none := by
        show pipeGroup acc c (')' :: " -->".data) = none
        exact pipeGroupNoPipe _ _ _ _ (by decide)
      rw [matchBodyConsEnd acc c endTag hdot hpg (by decide)]
      simp [List.reverse_cons, show endTag.drop endTag.length = ([] : List Char) from rfl]
    | cons d rest2 =>
      have hd := plainTokenCharProps (by
        simp only [List.all_cons, Bool.and_eq_true] at hrest
        exact hrest.1)
      show matchBody acc (c :: ((d :: rest2) ++ endTag)) = _
      have hpg : pipeGroup acc c ((d :: rest2) ++ endTag) = none := by
        show pipeGroup acc c (d :: (rest2 ++ endTag)) = none
        exact pipeGroupNoPipe _ _ _ _ hd.2.1
      have hnp : endTag.isPrefixOf ((d :: rest2) ++ endTag) = false := by
        show endTag.isPrefixOf (d :: (rest2 ++ endTag)) = false
        exact endTagNotPrefix _ hd.2.2
      rw [matchBodyConsNone acc c _ hdot hpg hnp, ih (c :: acc) (by simp) hrest]
      simp [List.reverse_cons, List.append_assoc]

lemma matchBodyPipe : ∀ (l acc path : List Char), l ≠ [] → l.all plainTokenChar = true →
    path ≠ [] → path.all plainPathChar = true →
    matchBody acc (l ++ '|' :: (path ++ endTag)) =
      some (acc.reverse ++ l ++ '|' :: path, some path, []) := by
  intro l
  induction l with
  | nil => intro acc path h _ _ _; exact absurd rfl h
  | cons c rest ih =>
    intro acc path _ hall hpne hpall
    simp only [List.all_cons, Bool.and_eq_true] at hall
    obtain ⟨hc, hrest⟩ := hall
    obtain ⟨hdot, hpipe, hcp⟩ := plainTokenCharProps hc
    cases rest with
    | nil =>
      show matchBody acc (c :: ('|' :: (path ++ endTag))) = _
      have hin : innerLazy [] (path ++ endTag) = some (path, []) := by
        rw [innerLazyPlain path [] hpne hpall]
        rfl
      have hpg : pipeGroup acc c ('|' :: (path ++ endTag)) =
          some ((c :: acc).reverse ++ '|' :: path, some path, []) :=
        pipeGroupConsPipe acc c _ path [] hin
      rw [matchBodyConsPipe acc c _ _ hdot hpg]
      simp [List.reverse_cons, List.append_assoc]
    | cons d rest2 =>
      have hd := plainTokenCharProps (by
        simp only [List.all_cons, Bool.and_eq_true] at hrest
        exact hrest.1)
      show matchBody acc (c :: ((d :: rest2) ++ '|' :: (path ++ endTag))) = _
      have hpg : pipeGroup acc c ((d :: rest2) ++ '|' :: (path ++ endTag)) = none := by
        show pipeGroup acc c (d :: (rest2 ++ '|' :: (path ++ endTag))) = none
        exact pipeGroupNoPipe _ _ _ _ hd.2.1
      have hnp : endTag.isPrefixOf ((d :: rest2) ++ '|' :: (path ++ endTag)) = false := by
        show endTag.isPrefixOf (d :: (rest2 ++ '|' :: (path ++ endTag))) = false
        exact endTagNotPrefix _ hd.2.2
      rw [matchBodyConsNone acc c _ hdot hpg hnp, ih (c :: acc) path (by simp) hrest hpne hpall]
      simp [List.reverse_cons, List.append_assoc]

/-! ### Scan level lemmas -/

lemma scanAuxNil (fuel : Nat) : scanAux fuel [] = [] := by
  cases fuel <;> rfl

lemma scanAuxFound (fuel : Nat) (s g1 : List Char) (g2 : Option (List Char))
    (rest : List Char) (hne : s ≠ [])
    (hpre : startTag.isPrefixOf s = true)
    (hmb : matchBody [] (s.drop startTag.length) = some (g1, g2, rest)) :
    scanAux (fuel + 1) s = (g1, g2) :: scanAux fuel rest := by
  cases s with
  | nil => exact absurd rfl hne
  | cons c cs => simp [scanAux, hpre, hmb]

lemma scanSingle (fuel : Nat) (tail g1 : List Char) (g2 : Option (List Char))
    (hf : 1 ≤ fuel) (hmb : matchBody [] tail = some (g1, g2, [])) :
    scanAux fuel (startTag ++ tail) = [(g1, g2)] := by
  cases fuel with
  | zero => omega
  | succ k =>
    have hne : startTag ++ tail ≠ [] := by
      intro h
      exact absurd (List.append_eq_nil.mp h).1 (by decide)
    have hpre : startTag.isPrefixOf (startTag ++ tail) = true := isPrefixOfSelfAppend _ _
    have hdrop : (startTag ++ tail).drop startTag.length = tail := List.drop_left _ _
    rw [scanAuxFound k _ g1 g2 [] hne hpre (by rw [hdrop]; exact hmb), scanAuxNil]

lemma tokenMatchesSingle (name : String) (hne : name.data ≠ [])
    (hall : name.data.all plainTokenChar = true) :
    tokenMatches ("<!-- START TOKEN(" ++ name ++ ") -->") = [(name.data, none)] := by
  have hdata : ("<!-- START TOKEN(" ++ name ++ ") -->").data =
      startTag ++ (name.data ++ endTag) := by
    simp only [String.data_append]
    show (startTag ++ name.data) ++ endTag = _
    rw [List.append_assoc]
  unfold tokenMatches
  rw [hdata]
  apply scanSingle
  · rw [List.length_append]
    have h17 : startTag.length = 17 := rfl
    omega
  · have h := matchBodyNoPipe name.data [] hne hall
    simpa using h

lemma tokensOfSingle (name : String) (hne : name.data ≠ [])
    (hall : name.data.all plainTokenChar = true) :
    tokensOf ("<!-- START TOKEN(" ++ name ++ ") -->") = [(name, DEFAULT_PATH)] := by
  unfold tokensOf
  rw [tokenMatchesSingle name hne hall]
  simp [strMkData]

lemma tokenMatchesPipe (name path : String) (hne : name.data ≠ [])
    (hall : name.data.all plainTokenChar = true)
    (hpne : path.data ≠ []) (hpall : path.data.all plainPathChar = true) :
    tokenMatches ("<!-- START TOKEN(" ++ name ++ "|" ++ path ++ ") -->") =
      [(name.data ++ '|' :: path.data, some path.data)] := by
  have hdata : ("<!-- START TOKEN(" ++ name ++ "|" ++ path ++ ") -->").data =
      startTag ++ (name.data ++ '|' :: (path.data ++ endTag)) := by
    simp only [String.data_append]
    show (((startTag ++ name.data) ++ ['|']) ++ path.data) ++ endTag = _
    simp [List.append_assoc]
  unfold tokenMatches
  rw [hdata]
  apply scanSingle
  · rw [List.length_append]
    have h17 : startTag.length = 17 := rfl
    omega
  · have h := matchBodyPipe name.data [] path.data hne hall hpne hpall
    simpa using h

lemma tokensOfPipe (name path : String) (hne : name.data ≠ [])
    (hall : name.data.all plainTokenChar = true)
    (hpne : path.data ≠ []) (hpall : path.data.all plainPathChar = true) :
    tokensOf ("<!-- START TOKEN(" ++ name ++ "|" ++ path ++ ") -->") =
      [(name ++ "|" ++ path, path)] := by
  unfold tokensOf
  rw [tokenMatchesPipe name path hne hall hpne hpall]
  have hjoin : name.data ++ '|' :: path.data = (name ++ "|" ++ path).data := by
    simp [String.data_append]
  simp only [List.map_cons, List.map_nil]
  rw [hjoin, strMkData, strMkData]

lemma scanNoTag : ∀ (fuel : Nat) (s : List Char), occursIn startTag s = false →
    scanAux fuel s = [] := by
  intro fuel
  induction fuel with
  | zero => intro s _; rfl
  | succ k ih =>
    intro s h
    cases s with
    | nil => rfl
    | cons c cs =>
      have h2 : startTag.isPrefixOf (c :: cs) = false ∧ occursIn startTag cs = false := by
        simp only [occursIn, Bool.or_eq_false_iff] at h
        exact h
      show scanAux (k + 1) (c :: cs) = []
      simp only [scanAux, h2.1, Bool.false_eq_true, if_false]
      exact ih cs h2.2

/-! ### Pipeline lemmas -/

lemma processFileOk (file content : String) :
    processFile file (Except.ok content) = (tokensOf content).map (tokenInvocation file) := by
  by_cases h : content = ""
  · subst h
    rfl
  · by_cases ht : tokensOf content = []
    · show (match transformFile file (Except.ok content) with
        | none => []
        | some (f, ts) => ts.map (tokenInvocation f)) = _
      simp [transformFile, h, ht]
    · show (match transformFile file (Except.ok content) with
        | none => []
        | some (f, ts) => ts.map (tokenInvocation f)) = _
      simp only [transformFile, if_neg h, if_neg ht]

lemma runFileTokensOk (gen : Invocation → Except String Unit) (file : String)
    (hgen : ∀ i, gen i = Except.ok ()) :
    ∀ ts : List (String × String),
      runFileTokens gen file ts = (ts.map (tokenInvocation file), none) := by
  intro ts
  induction ts with
  | nil => rfl
  | cons t ts ih =>
    show (match gen (tokenInvocation file t) with
      | Except.error e => ([tokenInvocation file t], some e)
      | Except.ok _ =>
        let r := runFileTokens gen file ts
        (tokenInvocation file t :: r.1, r.2)) = _
    rw [hgen (tokenInvocation file t), ih]
    rfl

lemma uniqueFirstAuxSeen : ∀ (l seen : List String), (∀ x ∈ l, x ∈ seen) →
    uniqueFirstAux seen l = [] := by
  intro l
  induction l with
  | nil => intro seen _; rfl
  | cons x xs ih =>
    intro seen h
    show (if x ∈ seen then uniqueFirstAux seen xs else _) = []
    rw [if_pos (h x (List.mem_cons_self _ _))]
    exact ih seen (fun y hy => h y (List.mem_cons_of_mem _ hy))

lemma uniqueFirstConst (l : List String) (pkg : String) (hne : l ≠ [])
    (h : ∀ x ∈ l, x = pkg) : uniqueFirst l = [pkg] := by
  cases l with
  | nil => exact absurd rfl hne
  | cons x xs =>
    have hx : x = pkg := h x (by simp)
    subst hx
    show (if x ∈ ([] : List String) then uniqueFirstAux [] xs
      else x :: uniqueFirstAux [x] xs) = [x]
    rw [if_neg (List.not_mem_nil x)]
    rw [uniqueFirstAuxSeen xs [x] (fun y hy =>
      List.mem_singleton.mpr (h y (List.mem_cons_of_mem _ hy)))]

lemma patternsSingle (files : List String) (pkg : String) (hne : files ≠ [])
    (hall : ∀ f ∈ files, getFilePackage f = pkg) :
    getPackagePattern files = pkg ∧
      getDataDocumentationPattern files = getDataDocumentationFile pkg := by
  have hmap : ∀ x ∈ files.map getFilePackage, x = pkg := by
    intro x hx
    obtain ⟨f, hf, rfl⟩ := List.mem_map.mp hx
    exact hall f hf
  have hmapne : files.map getFilePackage ≠ [] := by
    intro h
    exact hne (List.map_eq_nil_iff.mp h)
  have hu : uniqueFirst (files.map getFilePackage) = [pkg] :=
    uniqueFirstConst _ _ hmapne hmap
  constructor
  · unfold getPackagePattern
    rw [if_neg hne, hu]
    simp
  · unfold getDataDocumentationPattern
    rw [if_neg hne, hu]
    simp

lemma segMatchesLit (pat seg : String) (h1 : pat ≠ "*")
    (h2 : braceWrapped pat.data = false) :
    (segMatches pat seg = true ↔ seg = pat) := by
  simp only [segMatches, if_neg h1, h2, Bool.false_eq_true, if_false]
  constructor
  · exact fun hb => (beq_iff_eq.mp hb).symm
  · exact fun he => beq_iff_eq.mpr he.symm

lemma braceWrappedD (l : List Char) : braceWrapped ('d' :: l) = false := by
  show (('d' == lbrace) && ((l.getLastD ' ' == rbrace) && !l.isEmpty)) = false
  rw [show ('d' == lbrace) = false from by decide, Bool.false_and]

lemma docFileData (pkg : String) : (getDataDocumentationFile pkg).data =
    'd' :: (("ata-".data ++ (String.mk (replFirstSlash (getPackageStoreName pkg).data)).data) ++ ".md".data) := by
  simp only [getDataDocumentationFile, String.data_append]
  rfl

lemma docFileNotStar (pkg : String) : getDataDocumentationFile pkg ≠ "*" := by
  intro h
  have h2 := congrArg (fun s => s.data.length) h
  simp only [docFileData] at h2
  simp only [List.length_cons, List.length_append, List.length_nil] at h2
  omega

lemma docFileNotBrace (pkg : String) :
    braceWrapped (getDataDocumentationFile pkg).data = false := by
  rw [docFileData, braceWrappedD]

/-! ### Claim theorems -/

/-- Claim C1: for every doc file, the sequence of generator invocations
equals the token sequence of the file in textual order, each invocation
awaited before the next begins; in particular for a token sequence
consisting of A then B, the invocation for A happens before the one for
B.  The sequential loop is modelled by runFileTokens, whose result list
is ordered by execution time. -/
theorem claim_C1 : ∀ (gen : Invocation → Except String Unit) (file content : String),
    (∀ i, gen i = Except.ok ()) →
    runFileTokens gen file (tokensOf content) =
      ((tokensOf content).map (tokenInvocation file), none) ∧
    (∀ a b, tokensOf content = [a, b] →
      (runFileTokens gen file (tokensOf content)).1 =
        [tokenInvocation file a, tokenInvocation file b]) := by
  intro gen file content hgen
  refine ⟨runFileTokensOk gen file hgen _, ?_⟩
  intro a b hab
  rw [hab, runFileTokensOk gen file hgen]
  rfl

/-- Witness for claim C1 at a concrete two token file. -/
theorem claim_C1_witness :
    (runFileTokens (fun _ => Except.ok ()) "/gutenberg/packages/foo/README.md"
      (tokensOf "<!-- START TOKEN(A) --><!-- START TOKEN(B) -->")).1 =
      [tokenInvocation "/gutenberg/packages/foo/README.md" ("A", "src/index.js"),
       tokenInvocation "/gutenberg/packages/foo/README.md" ("B", "src/index.js")] :=
  (claim_C1 (fun _ => Except.ok ()) "/gutenberg/packages/foo/README.md"
    "<!-- START TOKEN(A) --><!-- START TOKEN(B) -->" (fun _ => rfl)).2
    ("A", "src/index.js") ("B", "src/index.js") (by decide)

/-- Claim C4: for every token processed, the generator is invoked with
exactly the arguments: source path resolved against the directory of the
doc file and made relative to the root, the output option with the doc
path, the to-token flag, the use-token option quoting the token, and the
ignore option with the unstable or experimental pattern. -/
theorem claim_C4 : ∀ (file content : String),
    processFile file (Except.ok content) = (tokensOf content).map (fun tp =>
      { cmd := DOCGEN_BIN,
        args := [ relativePath ROOT_DIR (resolvePath (dirName file) tp.2),
                  "--output " ++ relativePath ROOT_DIR file,
                  "--to-token",
                  "--use-token \"" ++ tp.1 ++ "\"",
                  "--ignore \"/unstable|experimental/i\"" ],
        shell := true }) := by
  intro file content
  rw [processFileOk]
  rfl

/-- Claim C5: DEFAULT_PATH is the conventional src/index.js; every match
without a path group is mapped to a token whose path is DEFAULT_PATH;
and a marker formed from a bare name with no path segment produces
exactly the token of that name with path src/index.js. -/
theorem claim_C5 : ∀ (content name : String),
    DEFAULT_PATH = "src/index.js" ∧
    (∀ g1 : List Char, (g1, (none : Option (List Char))) ∈ tokenMatches content →
      (String.mk g1, DEFAULT_PATH) ∈ tokensOf content) ∧
    (name.data ≠ [] → name.data.all plainTokenChar = true →
      tokensOf ("<!-- START TOKEN(" ++ name ++ ") -->") = [(name, DEFAULT_PATH)]) := by
  intro content name
  refine ⟨rfl, ?_, ?_⟩
  · intro g1 hg
    exact List.mem_map_of_mem _ hg
  · intro h1 h2
    exact tokensOfSingle name h1 h2

/-- Witness for claim C5 at a concrete marker without a path. -/
theorem claim_C5_witness :
    tokensOf "<!-- START TOKEN(apiFetch) -->" = [("apiFetch", "src/index.js")] :=
  (claim_C5 "" "apiFetch").2.2 (by decide) (by decide)

/-- Claim C6: a content that does not contain the marker text yields no
tokens; and a content without tokens is dropped by the transform, hence
produces no generator invocation. -/
theorem claim_C6 : ∀ (file content : String),
    (occursIn startTag content.data = false → tokensOf content = []) ∧
    (tokensOf content = [] →
      transformFile file (Except.ok content) = none ∧
      processFile file (Except.ok content) = []) := by
  intro file content
  constructor
  · intro h
    unfold tokensOf tokenMatches
    rw [scanNoTag _ _ h]
    rfl
  · intro ht
    constructor
    · by_cases h : content = ""
      · subst h; rfl
      · simp [transformFile, h, ht]
    · rw [processFileOk, ht]
      rfl

/-- Witness for claim C6 at a concrete marker free content. -/
theorem claim_C6_witness :
    transformFile "/gutenberg/packages/foo/README.md" (Except.ok "# Heading only") = none ∧
    processFile "/gutenberg/packages/foo/README.md" (Except.ok "# Heading only") = [] :=
  (claim_C6 "/gutenberg/packages/foo/README.md" "# Heading only").2
    ((claim_C6 "/gutenberg/packages/foo/README.md" "# Heading only").1 (by decide))

/-- Claim C7: a file whose read fails is silently skipped: the transform
yields nothing for it, reports no error, and completes normally, the
empty catch having swallowed the failure; hence no generator invocation
occurs for it. -/
theorem claim_C7 : ∀ (file e : String),
    transformFile file (Except.error e) = none ∧
    processFile file (Except.error e) = [] := by
  intro file e
  exact ⟨rfl, rfl⟩

/-- Claim C8: when the generator invocation of one token fails, the
error escapes uncaught and no invocation is attempted for the remaining
tokens of that file, with no retry and no partial success reporting. -/
theorem claim_C8 : ∀ (gen : Invocation → Except String Unit) (file : String)
    (ts1 : List (String × String)) (t : String × String)
    (ts2 : List (String × String)) (e : String),
    (∀ tp ∈ ts1, gen (tokenInvocation file tp) = Except.ok ()) →
    gen (tokenInvocation file t) = Except.error e →
    runFileTokens gen file (ts1 ++ t :: ts2) =
      (ts1.map (tokenInvocation file) ++ [tokenInvocation file t], some e) := by
  intro gen file ts1
  induction ts1 with
  | nil =>
    intro t ts2 e _ hx
    show (match gen (tokenInvocation file t) with
      | Except.error e => ([tokenInvocation file t], some e)
      | Except.ok _ =>
        let r := runFileTokens gen file ts2
        (tokenInvocation file t :: r.1, r.2)) = _
    rw [hx]
    rfl
  | cons a as ih =>
    intro t ts2 e hok hx
    have ha := hok a (by simp)
    show (match gen (tokenInvocation file a) with
      | Except.error e => ([tokenInvocation file a], some e)
      | Except.ok _ =>
        let r := runFileTokens gen file (as ++ t :: ts2)
        (tokenInvocation file a :: r.1, r.2)) = _
    rw [ha, ih t ts2 e (fun tp htp => hok tp (List.mem_cons_of_mem _ htp)) hx]
    rfl

/-- Witness for claim C8: the second of three tokens fails, so exactly
the first two invocations are attempted and the error escapes. -/
theorem claim_C8_witness :
    runFileTokens
      (fun i => if i = tokenInvocation "/gutenberg/packages/foo/README.md" ("A", "src/index.js")
        then Except.error "boom" else Except.ok ())
      "/gutenberg/packages/foo/README.md"
      [("B", "src/index.js"), ("A", "src/index.js"), ("C", "src/index.js")] =
      ([tokenInvocation "/gutenberg/packages/foo/README.md" ("B", "src/index.js"),
        tokenInvocation "/gutenberg/packages/foo/README.md" ("A", "src/index.js")], some "boom") := by
  have h := claim_C8
    (fun i => if i = tokenInvocation "/gutenberg/packages/foo/README.md" ("A", "src/index.js")
      then Except.error "boom" else Except.ok ())
    "/gutenberg/packages/foo/README.md"
    [("B", "src/index.js")] ("A", "src/index.js") [("C", "src/index.js")] "boom"
    (by
      intro tp htp
      have : tp = ("B", "src/index.js") := by simpa using htp
      subst this
      exact if_neg (by decide))
    (if_pos rfl)
  simpa using h

/-- Claim C9: a marker carrying a path segment yields a token whose
identifier is the whole text of name, pipe and path, not the bare name,
and that identifier is what the use-token argument quotes. -/
theorem claim_C9 : ∀ (name path file : String),
    name.data ≠ [] → name.data.all plainTokenChar = true →
    path.data ≠ [] → path.data.all plainPathChar = true →
    tokensOf ("<!-- START TOKEN(" ++ name ++ "|" ++ path ++ ") -->") =
      [(name ++ "|" ++ path, path)] ∧
    (tokenInvocation file (name ++ "|" ++ path, path)).args.getD 3 "" =
      "--use-token \"" ++ (name ++ "|" ++ path) ++ "\"" := by
  intro name path file h1 h2 h3 h4
  exact ⟨tokensOfPipe name path h1 h2 h3 h4, rfl⟩

/-- Witness for claim C9 at a concrete marker with a path. -/
theorem claim_C9_witness :
    tokensOf "<!-- START TOKEN(api|src/api.js) -->" = [("api|src/api.js", "src/api.js")] :=
  (claim_C9 "api" "src/api.js" "/f" (by decide) (by decide) (by decide) (by decide)).1

/-- Claim C10: a readable file with empty content behaves exactly as an
unreadable one, because the post read check tests content truthiness:
no tuple is emitted and no generator invocation occurs. -/
theorem claim_C10 : ∀ (file e : String),
    transformFile file (Except.ok "") = transformFile file (Except.error e) ∧
    transformFile file (Except.ok "") = none ∧
    processFile file (Except.ok "") = [] := by
  intro file e
  exact ⟨rfl, rfl, rfl⟩

/-- Claim C2, counterexample: the stated convention pair of package core
and file data-core-data.md fails in both directions.  The doc filename
derived from package core is data-core-core.md, because the store name
of core is core/core; and the package derived from data-core-data.md is
data, because stripping the data- and core- leading literals leaves
data. -/
theorem claim_C2_counterexample :
    getDataDocumentationFile "core" ≠ "data-core-data.md" ∧
    getDataDocumentationFilePackage (baseNameExt "data-core-data.md" ".md") ≠ "core" ∧
    getDataDocumentationFile "core" = "data-core-core.md" ∧
    getDataDocumentationFilePackage (baseNameExt "data-core-data.md" ".md") = "data" := by
  refine ⟨?_, ?_, ?_, ?_⟩ <;> decide

/-- Claim C2 as amended: package name derivation, that is
getDataDocumentationFilePackage composed with basename stripping the md
extension, is the inverse of doc filename derivation for the convention
pairs that the code actually realises: package core-data maps to
data-core.md and back, and package foo maps to data-core-foo.md and
back. -/
theorem claim_C2_amended :
    getDataDocumentationFile "core-data" = "data-core.md" ∧
    getDataDocumentationFilePackage (baseNameExt "data-core.md" ".md") = "core-data" ∧
    getDataDocumentationFile "foo" = "data-core-foo.md" ∧
    getDataDocumentationFilePackage (baseNameExt "data-core-foo.md" ".md") = "foo" := by
  refine ⟨?_, ?_, ?_, ?_⟩ <;> decide

/-- Claim C3: for a non empty file list whose files all belong to one
package, the two glob patterns reduce to exactly that package README and
that package data documentation file, matching no other name; for the
empty list both patterns are the star that matches every segment. -/
theorem claim_C3 :
    (∀ (files : List String) (pkg : String), files ≠ [] →
      (∀ f ∈ files, getFilePackage f = pkg) → pkg ≠ "*" →
      braceWrapped pkg.data = false →
      getPackagePattern files = pkg ∧
      getDataDocumentationPattern files = getDataDocumentationFile pkg ∧
      globList files = [ PACKAGES_DIR ++ "/" ++ pkg ++ "/README.md",
                         DATA_DOCS_DIR ++ "/" ++ getDataDocumentationFile pkg ] ∧
      (∀ p, segMatches (getPackagePattern files) p = true ↔ p = pkg) ∧
      (∀ d, segMatches (getDataDocumentationPattern files) d = true ↔
        d = getDataDocumentationFile pkg)) ∧
    (getPackagePattern [] = "*" ∧ getDataDocumentationPattern [] = "*" ∧
      ∀ s : String, s.data.contains '/' = false → segMatches "*" s = true) := by
  constructor
  · intro files pkg hne hall hstar hbrace
    obtain ⟨h1, h2⟩ := patternsSingle files pkg hne hall
    refine ⟨h1, h2, ?_, ?_, ?_⟩
    · unfold globList
      rw [h1, h2]
    · intro p
      rw [h1]
      exact segMatchesLit pkg p hstar hbrace
    · intro d
      rw [h2]
      exact segMatchesLit _ d (docFileNotStar pkg) (docFileNotBrace pkg)
  · refine ⟨rfl, rfl, ?_⟩
    intro s hs
    simp only [segMatches, if_pos rfl]
    rw [hs]
    rfl

/-- Witness for claim C3 at a single package file list. -/
theorem claim_C3_witness :
    getPackagePattern ["/gutenberg/packages/foo/README.md"] = "foo" ∧
    getDataDocumentationPattern ["/gutenberg/packages/foo/README.md"] = "data-core-foo.md" ∧
    segMatches (getPackagePattern ["/gutenberg/packages/foo/README.md"]) "foo" = true ∧
    segMatches (getPackagePattern ["/gutenberg/packages/foo/README.md"]) "components" = false ∧
    segMatches (getDataDocumentationPattern ["/gutenberg/packages/foo/README.md"])
      "data-core-components.md" = false ∧
    getPackagePattern [] = "*" := by
  have h := claim_C3.1 ["/gutenberg/packages/foo/README.md"] "foo" (by decide)
    (by
      intro f hf
      have : f = "/gutenberg/packages/foo/README.md" := by simpa using hf
      subst this
      decide)
    (by decide) (by decide)
  obtain ⟨h1, h2, _, h4, h5⟩ := h
  refine ⟨h1, ?_, ?_, ?_, ?_, claim_C3.2.1⟩
  · rw [h2]
    decide
  · exact (h4 "foo").mpr rfl
  · exact Bool.eq_false_iff.mpr (fun hb => absurd ((h4 "components").mp hb) (by decide))
  · refine Bool.eq_false_iff.mpr (fun hb => ?_)
    have := (h5 "data-core-components.md").mp hb
    have hne2 : ("data-core-components.md" : String) ≠ getDataDocumentationFile "foo" := by decide
    exact absurd this hne2
